import Mathlib

/-!
Shallow embedding of the test engine in src/cli/test.py (classes
AppTestCase, AppTestLoader, AppTestResult, AppTestRunner), together with
theorems checking the natural-language specification against it.

Python values that matter here (attribute markers, tracebacks, file
names) are modelled with explicit Lean data; machine-level concerns
(timers, logging side effects) are irrelevant to the claims and are
dropped, which is noted at each definition.
-/

namespace CliTest

/-! ### Python attribute values used as disabled markers

A disabled marker may be any Python value; the code only ever tests its
truthiness and prints it with %s. We model the two shapes that occur
(None and strings); truthiness of None is False and of a string is
nonemptiness, and %s renders None as "None". -/

inductive Marker where
  | pyNone
  | str (s : String)
deriving DecidableEq, Repr

def Marker.truthy : Marker → Bool
  | .pyNone => false
  | .str s => !s.isEmpty

def Marker.pyStr : Marker → String
  | .pyNone => "None"
  | .str s => s

/-! ### Case model

One Case = one test method of an AppTestCase instance. The outcome
fields describe what the setUp hook, the test body and the tearDown
hook would do if executed (src/cli/test.py does not inspect them before
running; they are the oracle for the embedded unittest protocol).
An attribute that is absent is Option.none; present attributes carry
their value, so getattr with a default is Option.getD. -/

inductive BodyOutcome where
  | ok
  | failing (tb : String)
  | erroring (tb : String)
deriving DecidableEq, Repr

structure Case where
  methodDisabled : Option Marker := Option.none
  caseDisabled : Option Marker := Option.none
  setUpRaises : Option String := Option.none
  body : BodyOutcome := BodyOutcome.ok
  tearDownRaises : Option String := Option.none
  filename : String := ""
  lineno : Nat := 0
  classname : String := ""
  methodname : String := ""
deriving DecidableEq, Repr

/-- Embeds lines 88-89 of src/cli/test.py:
disabled = getattr(self.testmethod, "disabled", getattr(self, "disabled", None)). -/
def Case.disabledMarker (c : Case) : Marker :=
  c.methodDisabled.getD (c.caseDisabled.getD Marker.pyNone)

/-! ### Result model

AppTestResult (src/cli/test.py lines 303-373). Timing fields and log
calls are dropped: no claim concerns them. testsRun, failures and
errors live in the unittest.TestResult base; skipped is added by
AppTestResult.__init__. -/

structure AppTestResult where
  testsRun : Nat := 0
  failures : List (Case × String) := []
  errors : List (Case × String) := []
  skipped : List (Case × Marker) := []
deriving DecidableEq, Repr

/-- Embeds unittest.TestResult.wasSuccessful:
return len(self.failures) == len(self.errors) == 0. -/
def AppTestResult.wasSuccessful (r : AppTestResult) : Bool :=
  r.failures.isEmpty && r.errors.isEmpty

/-- Embeds AppTestResult.startTest (line 342): the base
unittest.TestResult.startTest increments testsRun; the rest of the
method sets description attributes and logs, which we drop. -/
def AppTestResult.startTest (r : AppTestResult) (_t : Case) : AppTestResult :=
  { r with testsRun := r.testsRun + 1 }

/-- Embeds AppTestResult.stopTest (line 352): the base method and the
log call change none of the modelled state. -/
def AppTestResult.stopTest (r : AppTestResult) (_t : Case) : AppTestResult := r

/-- Embeds AppTestResult.addSuccess (line 356): base addSuccess is a
no-op on the modelled state; the timer and log call are dropped. -/
def AppTestResult.addSuccess (r : AppTestResult) (_t : Case) : AppTestResult := r

/-- Embeds AppTestResult.addFailure (line 361): delegates to
unittest.TestResult.addFailure, which appends (test, traceback) to
self.failures. -/
def AppTestResult.addFailure (r : AppTestResult) (t : Case) (tb : String) : AppTestResult :=
  { r with failures := r.failures ++ [(t, tb)] }

/-- Embeds AppTestResult.addError (line 366). NOTE: the source body
calls unittest.TestResult.addFailure (line 368), not addError, so the
pair is appended to self.failures and self.errors is left unchanged.
This is translated faithfully. -/
def AppTestResult.addError (r : AppTestResult) (t : Case) (tb : String) : AppTestResult :=
  { r with failures := r.failures ++ [(t, tb)] }

/-- Embeds AppTestResult.addSkip (line 371): logs a status message and
appends (test, message) to self.skipped. -/
def AppTestResult.addSkip (r : AppTestResult) (t : Case) (message : Marker) : AppTestResult :=
  { r with skipped := r.skipped ++ [(t, message)] }

/-! ### Execution protocol

Step records which callables actually run during one Case execution,
so that claims about hooks never being invoked are expressible. -/

inductive Step where
  | startTest
  | setUpHook
  | bodyCall
  | tearDownHook
  | stopTest
deriving DecidableEq, Repr

/-- Embeds unittest.TestCase.run (Python 2 standard library), the
delegate on line 93 of src/cli/test.py: startTest; setUp (any
exception: addError, skip body and tearDown); the body (assertion
failure: addFailure, other exception: addError); tearDown (any
exception: addError, cancels success); addSuccess when everything
passed; stopTest in a finally block. Returns the updated result and
the list of steps that executed. -/
def unittestRun (c : Case) (r : AppTestResult) : AppTestResult × List Step :=
  let r0 := r.startTest c
  match c.setUpRaises with
  | Option.some tb =>
      (((r0.addError c tb).stopTest c),
       [Step.startTest, Step.setUpHook, Step.stopTest])
  | Option.none =>
      let bodyRes :=
        match c.body with
        | BodyOutcome.ok => (r0, true)
        | BodyOutcome.failing tb => (r0.addFailure c tb, false)
        | BodyOutcome.erroring tb => (r0.addError c tb, false)
      let tearRes :=
        match c.tearDownRaises with
        | Option.some tb => (bodyRes.1.addError c tb, false)
        | Option.none => (bodyRes.1, bodyRes.2)
      let r3 := if tearRes.2 then tearRes.1.addSuccess c else tearRes.1
      (r3.stopTest c,
       [Step.startTest, Step.setUpHook, Step.bodyCall, Step.tearDownHook, Step.stopTest])

/-- Embeds AppTestCase.run (src/cli/test.py lines 81-93): read the
disabled marker from the test method, falling back to the Case, then
either addSkip with the marker as the message, or delegate to
unittest.TestCase.run. -/
def AppTestCase.run (c : Case) (r : AppTestResult) : AppTestResult × List Step :=
  let disabled := c.disabledMarker
  if disabled.truthy then (r.addSkip c disabled, [])
  else unittestRun c r

/-- Sequential execution of a Suite: unittest.TestSuite.run calls each
case in order with the shared result (the Runner invokes the suite at
line 394 of src/cli/test.py). -/
def runSuite : List Case → AppTestResult → AppTestResult
  | [], r => r
  | c :: cs, r => runSuite cs (AppTestCase.run c r).1

/-- Embeds line 396 of src/cli/test.py: the count the Runner reports in
its Ran N summary line is result.testsRun. -/
def runnerRanCount (r : AppTestResult) : Nat := r.testsRun

/-! ### Runner detail report

AppTestRunner.run (src/cli/test.py lines 390-438). We model the
stderr output both coarsely (which sections appear, in what order) and
finely (the exact text written for one skipped Case). Python
truthiness of a list is nonemptiness. -/

inductive SecTag where
  | skippedSec
  | errorsSec
  | failuresSec
deriving DecidableEq, Repr

/-- Embeds the control flow of lines 402-436: the detail report is
written only under (not result.wasSuccessful() or result.skipped), and
within it the Skipped block (line 408), Errors block (line 420) and
Failures block (line 429) are each written only when the respective
list is nonempty, in that textual order. -/
def detailSections (r : AppTestResult) : List SecTag :=
  if !r.wasSuccessful || !r.skipped.isEmpty then
    (if !r.skipped.isEmpty then [SecTag.skippedSec] else []) ++
    (if !r.errors.isEmpty then [SecTag.errorsSec] else []) ++
    (if !r.failures.isEmpty then [SecTag.failuresSec] else [])
  else []

def dash70 : String := String.mk (List.replicate 70 '-')

/-- Embeds the writes for one skipped Case, lines 412-418: each list
element is the argument of one self.app.stderr.write call, in order.
"%d" on a Python int and toString on Nat agree for line numbers. -/
def skipEntryWrites (t : Case) (message : Marker) : List String :=
  [dash70 ++ "\n",
   t.classname ++ "." ++ t.methodname ++ ":\n",
   "    file:\t" ++ t.filename ++ ":" ++ toString t.lineno ++ "\n",
   "    reason:\t" ++ message.pyStr,
   "\n"]

/-- Text written to the error-output stream for one skipped Case: the
concatenation of the write calls. -/
def skipEntryText (t : Case) (message : Marker) : String :=
  (skipEntryWrites t message).foldl (fun a b => a ++ b) ""

/-- Transcribes the format asserted by the spec sentence
Skip-reason output format: "<file>:<line>\n    reason:\t<message>\n" --
this definition follows the words of the spec, for comparison against
skipEntryText, which follows the source. -/
def skipEntryTextSpec (t : Case) (message : Marker) : String :=
  t.filename ++ ":" ++ toString t.lineno ++ "\n    reason:\t" ++ message.pyStr ++ "\n"

/-! ### Discovery candidate filter

AppTestLoader.loadTestsFromDirectory, lines 183-193. File names coming
from os.walk contain no path separator, so os.path.splitext is
modelled on the bare name: split at the last dot, except that a name
whose part before that dot is all dots (e.g. ".bashrc") has no
extension. String helpers are written over character lists so they
compute by kernel reduction. -/

def strStartsWith (s p : String) : Bool := p.toList.isPrefixOf s.toList

def strEndsWith (s p : String) : Bool := p.toList.reverse.isPrefixOf s.toList.reverse

def splitext (p : String) : String × String :=
  let cs := p.toList
  match cs.reverse.findIdx? (fun ch => ch = '.') with
  | Option.none => (p, "")
  | Option.some k =>
    let i := cs.length - 1 - k
    if (cs.take i).all (fun ch => ch = '.') then (p, "")
    else (String.mk (cs.take i), String.mk (cs.drop i))

def moduleExtension : String := ".py"

def modulePre : String := "test_"

def moduleSuf : String := "_test"

/-- Embeds the candidate condition of lines 189-193:
ext == self.module_extension and base.startswith(self.module_prefix)
or base.endswith(self.module_suffix). Python gives and a higher
precedence than or, which the parenthesisation reproduces. -/
def isCandidate (x : String) : Bool :=
  let base := (splitext x).1
  let ext := (splitext x).2
  (ext == moduleExtension && strStartsWith base modulePre) || strEndsWith base moduleSuf

/-- Transcribes the candidate condition as the spec states it: the
extension must equal the fixed module extension AND the stripped base
name starts with the module-prefix or ends with the module-suffix.
This follows the words of the spec for comparison with isCandidate,
which follows the source. -/
def isCandidateSpec (x : String) : Bool :=
  let base := (splitext x).1
  let ext := (splitext x).2
  ext == moduleExtension && (strStartsWith base modulePre || strEndsWith base moduleSuf)

/-! ### Suite ordering

AppTestLoader.sort_methods (lines 140-156) and getTestCaseNames
(lines 158-165) sort the test method names of ONE test case class by
(source file, source line). loadTestsFromModule (lines 210-230)
gathers the case classes in the group order unittests, plain classes,
then one synthetic class per bare function, and loadTestsFromDirectory
(lines 167-200) concatenates per discovered module. A TMethod stands
for one test method with its resolved source position. Python cmp on
byte strings is lexicographic by byte; cmpChars is lexicographic by
character code, which agrees on the ASCII file names in play. -/

structure TMethod where
  mname : String
  file : String
  lineno : Nat
deriving DecidableEq, Repr

def cmpChars : List Char → List Char → Ordering
  | [], [] => Ordering.eq
  | [], _ :: _ => Ordering.lt
  | _ :: _, [] => Ordering.gt
  | a :: as, b :: bs =>
    match compare a.toNat b.toNat with
    | Ordering.eq => cmpChars as bs
    | o => o

/-- Embeds AppTestLoader.sort_methods: if both objects come from the
same source file, cmp their line numbers, else cmp the file names. -/
def sort_methods (x y : TMethod) : Ordering :=
  if x.file = y.file then compare x.lineno y.lineno
  else cmpChars x.file.toList y.file.toList

/-- Sort key relation: cmp(x, y) <= 0, the condition under which a
Python comparison sort places x no later than y. -/
def methodLe (x y : TMethod) : Bool := sort_methods x y ≠ Ordering.gt

structure TClass where
  methods : List TMethod
deriving DecidableEq, Repr

/-- Embeds getTestCaseNames composed with loadTestsFromTestCase: the
methods of one test case class, sorted with sort_methods. Python
list.sort with a comparator is a stable merge sort; List.mergeSort
with the induced boolean order models it. -/
def loadCaseList (c : TClass) : List TMethod :=
  c.methods.mergeSort methodLe

structure TModule where
  unittests : List TClass
  plains : List TClass
  functions : List TMethod
deriving DecidableEq, Repr

/-- Embeds loadTestsFromModule: tests = unittests + classes +
functions (line 227), where each bare function was wrapped in its own
single-method FunctionTestCase, then each class is loaded (and its
methods sorted) separately. -/
def loadTestsFromModule (m : TModule) : List TMethod :=
  ((m.unittests ++ m.plains ++ m.functions.map (fun f => TClass.mk [f])).map
    loadCaseList).flatten

/-- Embeds loadTestsFromDirectory restricted to ordering: the
discovered modules (in walk order) each contribute their tests by
suite.addTests, which appends. -/
def loadTestsFromDirectory (ms : List TModule) : List TMethod :=
  (ms.map loadTestsFromModule).flatten

/-- Ordering property asserted by the claim for a whole Suite: every
earlier Case is on an earlier-or-equal line when from the same file,
and on a strictly smaller file name otherwise. -/
def claimOrdered (l : List TMethod) : Prop :=
  l.Pairwise (fun x y =>
    if x.file = y.file then x.lineno ≤ y.lineno
    else cmpChars x.file.toList y.file.toList = Ordering.lt)

/-! ### Plain-class adapter hooks

AppTestLoader.loadTestCaseFromTestClass, lines 267-292. For the hook
claims only the hook translation matters: the attribute-copy loop of
lines 275-279 copies members under their own names but installs no
setUp/tearDown. A class is abstracted by which of its hook attributes
exist as callables (a present value names the callable; callable(None)
is False, so an absent or non-callable attribute is Option.none). The
installed hook records which class callable the generated closure
invokes and that it passes self.testmethod as the argument. -/

structure PlainClass where
  setupMethodAttr : Option String := Option.none
  teardownMethodAttr : Option String := Option.none
deriving DecidableEq, Repr

structure HookCall where
  callee : String
  passesTestMethod : Bool
deriving DecidableEq, Repr

structure PlainCaseHooks where
  setUpHook : Option HookCall
  tearDownHook : Option HookCall
deriving DecidableEq, Repr

/-- Embeds lines 280-289. NOTE line 281 of the source reads
teardown_method = getattr(cls, "setup_method", None): the teardown
variable is loaded from the setup_method attribute. This is translated
faithfully. Both generated closures call hook(self, self.testmethod). -/
def loadTestCaseFromTestClass (cls : PlainClass) : PlainCaseHooks :=
  let setupMethod := cls.setupMethodAttr
  let teardownMethod := cls.setupMethodAttr
  { setUpHook := setupMethod.map (fun f => { callee := f, passesTestMethod := true }),
    tearDownHook := teardownMethod.map (fun f => { callee := f, passesTestMethod := true }) }

/-! ### Native-case adapter

AppTestLoader.loadTestCaseFromUnittest, lines 254-265, mutates the
class object it is given. Class objects live in a heap indexed by
identity; a class is its attribute dictionary, an ordered association
list as in Python. Members are tagged as property members, plain
functions, or other values, which is all the adapter inspects. -/

inductive Member where
  | propMember (tag : String)
  | funcMember (tag : String)
  | valueMember (tag : String)
deriving DecidableEq, Repr

def Member.isProp : Member → Bool
  | .propMember _ => true
  | _ => false

abbrev Attrs := List (String × Member)

/-- Python setattr on a class: replace the value of an existing key in
place, else append the new binding. -/
def setattrA : Attrs → String → Member → Attrs
  | [], n, m => [(n, m)]
  | p :: rest, n, m => if p.1 = n then (n, m) :: rest else p :: setattrA rest n m

def lookupAttr (a : Attrs) (n : String) : Option Member :=
  (a.find? (fun p => p.1 = n)).map (fun p => p.2)

/-- Embeds AppTestCase.overridden_methods (line 43). -/
def overriddenMethods : List String := ["run"]

/-- Embeds vars(AppTestCase) as defined in lines 42-93: the class
attribute overridden_methods, the six property members, and the run
function (dunder entries added by Python are further valueMember
entries; none would be transported, so they are omitted). -/
def appTestCaseMembers : Attrs :=
  [("overridden_methods", Member.valueMember "overridden_methods"),
   ("testmethod", Member.propMember "testmethod"),
   ("lineno", Member.propMember "lineno"),
   ("filename", Member.propMember "filename"),
   ("module", Member.propMember "module"),
   ("classname", Member.propMember "classname"),
   ("methodname", Member.propMember "methodname"),
   ("run", Member.funcMember "run")]

def Heap : Type := Nat → Attrs

def Heap.setattrOn (h : Heap) (c : Nat) (n : String) (m : Member) : Heap :=
  fun x => if x = c then setattrA (h x) n m else h x

/-- Embeds loadTestCaseFromUnittest: for name, member in
vars(self.testcase_factory).items(): if isinstance(member, property)
or name in methods: setattr(unittest, name, member); return unittest.
The returned class identity is the argument itself. -/
def loadTestCaseFromUnittest (h : Heap) (u : Nat) : Nat × Heap :=
  let transported := appTestCaseMembers.filter
    (fun p => p.2.isProp || overriddenMethods.contains p.1)
  (u, transported.foldl (fun acc p => acc.setattrOn u p.1 p.2) h)

/-- Names the adapter writes onto the native class. -/
def transportedNames : List String :=
  ["testmethod", "lineno", "filename", "module", "classname", "methodname", "run"]

/-! ### Sample data used by witnesses and counterexamples -/

def sampleDisabledCase : Case :=
  { methodDisabled := Option.some (Marker.str "not ready"),
    filename := "test_a.py", lineno := 5,
    classname := "test_a", methodname := "test_one" }

def sampleEnabledCase : Case :=
  { filename := "test_a.py", lineno := 10,
    classname := "test_a", methodname := "test_two" }

def sampleErrorCase : Case :=
  { body := BodyOutcome.erroring "Traceback boom",
    filename := "test_a.py", lineno := 10,
    classname := "test_a", methodname := "test_two" }

/-! ## Theorems -/

/-- C2: a Case whose disabled marker (method attribute first, Case
attribute as fallback) is truthy when run is invoked goes straight to
Skipped: no step executes (in particular neither setUp, the body nor
tearDown), and the result changes only by appending the single pair
(Case, reason) with the supplied reason to its skipped list. -/
theorem c2_disabled_skips_directly (c : Case) (r : AppTestResult)
    (h : c.disabledMarker.truthy = true) :
    AppTestCase.run c r =
      ({ r with skipped := r.skipped ++ [(c, c.disabledMarker)] }, ([] : List Step)) := by
  simp [AppTestCase.run, h, AppTestResult.addSkip]

/-- Witness for c2_disabled_skips_directly at a concrete disabled Case. -/
theorem c2_witness :
    (sampleDisabledCase.disabledMarker.truthy = true) ∧
    AppTestCase.run sampleDisabledCase {} =
      ({ skipped := [(sampleDisabledCase, Marker.str "not ready")] }, ([] : List Step)) := by
  refine ⟨by decide, ?_⟩
  have h := c2_disabled_skips_directly sampleDisabledCase {} (by decide)
  simpa [sampleDisabledCase, Case.disabledMarker] using h

/-- C3: wasSuccessful is true exactly when both the failures list and
the errors list are empty, and addSkip leaves wasSuccessful unchanged
no matter how often it is applied (it only touches the skipped list). -/
theorem c3_wasSuccessful_iff (r : AppTestResult) :
    (r.wasSuccessful = true ↔ (r.failures = [] ∧ r.errors = [])) ∧
    (∀ (c : Case) (m : Marker), (r.addSkip c m).wasSuccessful = r.wasSuccessful) := by
  constructor
  · simp [AppTestResult.wasSuccessful, List.isEmpty_iff]
  · intro c m
    simp [AppTestResult.addSkip, AppTestResult.wasSuccessful]

/-- C4 (code behavior at the failing input): a Case whose body raises
a non-assertion exception ends with the (Case, traceback) pair in the
FAILURES list and the errors list still empty, because
AppTestResult.addError (line 366) delegates to
unittest.TestResult.addFailure (line 368); consequently the detail
report shows the Case in the Failures section and the Errors section
is not emitted. This contradicts the claim, which expects the pair in
the errors list and an Errors section entry. -/
theorem c4_addError_records_failure :
    (AppTestCase.run sampleErrorCase {}).1.errors = [] ∧
    (AppTestCase.run sampleErrorCase {}).1.failures =
      [(sampleErrorCase, "Traceback boom")] ∧
    detailSections (AppTestCase.run sampleErrorCase {}).1 = [SecTag.failuresSec] := by
  decide

/-- C5 (code behavior at the failing input): the file foo_test.txt has
extension .txt, not the module extension .py, yet the walk treats it
as a discovery candidate, because in line 191-193 the and binds
tighter than the or, so a name ending in _test is a candidate
regardless of its extension. The spec reading (extension must match
AND prefix-or-suffix) rejects it. -/
theorem c5_candidate_extension_bug :
    splitext "foo_test.txt" = ("foo_test", ".txt") ∧
    isCandidate "foo_test.txt" = true ∧
    isCandidateSpec "foo_test.txt" = false := by
  decide

/-- C6: the categorized detail report is emitted (has at least one
section) exactly when the Result was not fully successful or at least
one Case was skipped, and the sections that do appear always form a
subsequence of Skipped, Errors, Failures, in that order. -/
theorem c6_detail_report_sections (r : AppTestResult) :
    (detailSections r ≠ [] ↔ (r.wasSuccessful = false ∨ r.skipped ≠ [])) ∧
    (detailSections r).Sublist [SecTag.skippedSec, SecTag.errorsSec, SecTag.failuresSec] := by
  constructor
  · constructor
    · intro hne
      by_contra hcon
      push_neg at hcon
      obtain ⟨hsucc, hskip⟩ := hcon
      have hsucc' : r.wasSuccessful = true := by
        cases hval : r.wasSuccessful
        · exact absurd hval hsucc
        · rfl
      simp [detailSections, hsucc', hskip] at hne
    · intro hor
      rcases hor with hsucc | hskip
      · have hfe : ¬ (r.failures = [] ∧ r.errors = []) := by
          intro hand
          have : r.wasSuccessful = true := by
            simp [AppTestResult.wasSuccessful, hand.1, hand.2]
          simp [this] at hsucc
        simp only [detailSections, hsucc, List.isEmpty_eq_false]
        rcases Decidable.em (r.failures = []) with hf | hf
        · have he : r.errors ≠ [] := by
            intro he
            exact hfe ⟨hf, he⟩
          simp [he, List.append_eq_nil]
        · simp [hf, List.append_eq_nil]
      · simp [detailSections, hskip, List.append_eq_nil]
  · simp only [detailSections]
    rcases Decidable.em (r.skipped.isEmpty = true) with hs | hs <;>
    rcases Decidable.em (r.errors.isEmpty = true) with he | he <;>
    rcases Decidable.em (r.failures.isEmpty = true) with hf | hf <;>
    simp [hs, he, hf] <;>
    split <;> decide

/-- C7 (code behavior at the failing input): line 281 loads the
teardown hook from the setup_method attribute. A plain test class
that defines a callable teardown_method but no setup_method gets NO
tearDown hook at all, and a class defining both gets a tearDown that
invokes setup_method rather than teardown_method. The claim (tearDown
invokes the class teardown_method) therefore fails; its setUp half is
honored by the code. -/
theorem c7_teardown_reads_setup :
    (loadTestCaseFromTestClass
      { teardownMethodAttr := Option.some "teardown_method" }).tearDownHook = Option.none ∧
    ({ teardownMethodAttr := Option.some "teardown_method" } : PlainClass).teardownMethodAttr ≠
      Option.none ∧
    (loadTestCaseFromTestClass
      { setupMethodAttr := Option.some "setup_method",
        teardownMethodAttr := Option.some "teardown_method" }).tearDownHook =
      Option.some { callee := "setup_method", passesTestMethod := true } ∧
    (loadTestCaseFromTestClass
      { setupMethodAttr := Option.some "setup_method",
        teardownMethodAttr := Option.some "teardown_method" }).setUpHook =
      Option.some { callee := "setup_method", passesTestMethod := true } := by
  decide

/-- C8 counterexample: at a concrete skipped Case the text the Runner
writes for it is not the claimed format <file>:<line>\n    reason:\t
<message>\n (the code writes a dashed separator, a class.method line,
and prefixes the location with four spaces, file: and a tab). -/
theorem c8_counterexample :
    skipEntryText sampleDisabledCase (Marker.str "not ready") ≠
      skipEntryTextSpec sampleDisabledCase (Marker.str "not ready") := by
  decide

/-- C8 amended: the text written for one skipped Case is the dashed
separator line followed by <classname>.<methodname>:\n then
four spaces, file:, a tab, <file>:<line>, a newline, then four spaces,
reason:, a tab, <message>, and a final newline. -/
theorem c8_amended_skip_entry_text (t : Case) (message : Marker) :
    skipEntryText t message =
      dash70 ++ ("\n" ++ (t.classname ++ ("." ++ (t.methodname ++ (":\n" ++
        ("    file:\t" ++ (t.filename ++ (":" ++ (toString t.lineno ++ ("\n" ++
        ("    reason:\t" ++ (message.pyStr ++ "\n")))))))))))) := by
  simp [skipEntryText, skipEntryWrites, List.foldl, String.empty_append, String.append_assoc]

/-- Accounting helper: one Case execution increments testsRun exactly
when the Case is not disabled (startTest runs once on the non-skip
path and never on the skip path; no add method touches testsRun). -/
theorem run_testsRun (c : Case) (r : AppTestResult) :
    (AppTestCase.run c r).1.testsRun =
      r.testsRun + (if c.disabledMarker.truthy then 0 else 1) := by
  by_cases h : c.disabledMarker.truthy = true
  · simp [AppTestCase.run, h, AppTestResult.addSkip]
  · rcases hs : c.setUpRaises with _ | tb <;>
    rcases hb : c.body with _ | tb2 | tb3 <;>
    rcases ht : c.tearDownRaises with _ | tb4 <;>
    simp [AppTestCase.run, h, unittestRun, hs, hb, ht, AppTestResult.startTest,
      AppTestResult.stopTest, AppTestResult.addError, AppTestResult.addFailure,
      AppTestResult.addSuccess]

/-- Accounting helper lifted to a whole Suite run. -/
theorem runSuite_testsRun (cs : List Case) (r : AppTestResult) :
    (runSuite cs r).testsRun =
      r.testsRun + cs.countP (fun x => !x.disabledMarker.truthy) := by
  induction cs generalizing r with
  | nil => simp [runSuite]
  | cons c rest ih =>
    simp only [runSuite, ih, run_testsRun, List.countP_cons]
    by_cases h : c.disabledMarker.truthy = true
    · simp [h]
    · simp [h]
      omega

/-- C9: for a disabled Case neither startTest nor stopTest is ever
invoked (no step runs at all) and testsRun is unchanged, so the count
the Runner prints in its Ran N line equals the number of
non-disabled Cases in the Suite, excluding skipped ones. -/
theorem c9_skipped_not_counted (c : Case) (cs : List Case) (r : AppTestResult)
    (h : c.disabledMarker.truthy = true) :
    Step.startTest ∉ (AppTestCase.run c r).2 ∧
    Step.stopTest ∉ (AppTestCase.run c r).2 ∧
    (AppTestCase.run c r).1.testsRun = r.testsRun ∧
    runnerRanCount (runSuite cs r) =
      r.testsRun + cs.countP (fun x => !x.disabledMarker.truthy) := by
  refine ⟨?_, ?_, ?_, ?_⟩
  · simp [AppTestCase.run, h]
  · simp [AppTestCase.run, h]
  · simp [run_testsRun, h]
  · simp [runnerRanCount, runSuite_testsRun]

/-- Witness for c9_skipped_not_counted: one disabled and one enabled
Case; the Runner reports one test run. -/
theorem c9_witness :
    (sampleDisabledCase.disabledMarker.truthy = true) ∧
    (Step.startTest ∉ (AppTestCase.run sampleDisabledCase {}).2 ∧
     Step.stopTest ∉ (AppTestCase.run sampleDisabledCase {}).2 ∧
     (AppTestCase.run sampleDisabledCase {}).1.testsRun = AppTestResult.testsRun {} ∧
     runnerRanCount (runSuite [sampleDisabledCase, sampleEnabledCase] {}) =
       AppTestResult.testsRun {} +
         List.countP (fun x => !x.disabledMarker.truthy) [sampleDisabledCase, sampleEnabledCase]) := by
  exact ⟨by decide,
    c9_skipped_not_counted sampleDisabledCase [sampleDisabledCase, sampleEnabledCase] {} (by decide)⟩

/-- Lookup of a name other than the one just set is unchanged. -/
theorem lookupAttr_setattrA_ne (a : Attrs) (n nOther : String) (m : Member)
    (h : nOther ≠ n) :
    lookupAttr (setattrA a n m) nOther = lookupAttr a nOther := by
  induction a with
  | nil =>
    have hn1 : (decide (n = nOther)) = false := by simp [Ne.symm h]
    simp [setattrA, lookupAttr, List.find?_cons, hn1]
  | cons p rest ih =>
    by_cases hp : p.1 = n
    · have hn1 : (decide (n = nOther)) = false := by simp [Ne.symm h]
      simp [setattrA, lookupAttr, List.find?_cons, hp, hn1]
    · by_cases ho : p.1 = nOther
      · simp [setattrA, lookupAttr, List.find?_cons, hp, ho, h]
      · have h2 : (decide (p.1 = nOther)) = false := by simp [ho]
        simp only [setattrA, if_neg hp, lookupAttr, List.find?_cons, h2]
        simpa only [lookupAttr] using ih

/-- Lookup of the name just set yields the new member. -/
theorem lookupAttr_setattrA_self (a : Attrs) (n : String) (m : Member) :
    lookupAttr (setattrA a n m) n = Option.some m := by
  induction a with
  | nil => simp [setattrA, lookupAttr, List.find?_cons]
  | cons p rest ih =>
    by_cases hp : p.1 = n
    · simp [setattrA, lookupAttr, List.find?_cons, hp]
    · have hne : (decide (p.1 = n)) = false := by simp [hp]
      simp only [setattrA, if_neg hp, lookupAttr, List.find?_cons, hne]
      simpa only [lookupAttr] using ih

/-- C10: the native-case adapter returns the very class identity it
was given; every other class in the heap is untouched; on the given
class every attribute outside the transported capability set keeps its
previous value, and the six capability properties plus the overridden
run entry point are now present on it. -/
theorem c10_native_adapter_in_place (h : Heap) (u : Nat) :
    (loadTestCaseFromUnittest h u).1 = u ∧
    (∀ c : Nat, c ≠ u → (loadTestCaseFromUnittest h u).2 c = h c) ∧
    (∀ n : String, n ∉ transportedNames →
      lookupAttr ((loadTestCaseFromUnittest h u).2 u) n = lookupAttr (h u) n) ∧
    (∀ pr ∈ [("testmethod", Member.propMember "testmethod"),
             ("lineno", Member.propMember "lineno"),
             ("filename", Member.propMember "filename"),
             ("module", Member.propMember "module"),
             ("classname", Member.propMember "classname"),
             ("methodname", Member.propMember "methodname"),
             ("run", Member.funcMember "run")],
      lookupAttr ((loadTestCaseFromUnittest h u).2 u) pr.1 = Option.some pr.2) := by
  refine ⟨rfl, ?_, ?_, ?_⟩
  · intro c hc
    simp [loadTestCaseFromUnittest, appTestCaseMembers, overriddenMethods, Member.isProp,
      List.foldl, Heap.setattrOn, hc]
  · intro n hn
    simp only [transportedNames, List.mem_cons, List.not_mem_nil, or_false] at hn
    push_neg at hn
    obtain ⟨h1, h2, h3, h4, h5, h6, h7⟩ := hn
    simp [loadTestCaseFromUnittest, appTestCaseMembers, overriddenMethods, Member.isProp,
      List.foldl, Heap.setattrOn, lookupAttr_setattrA_ne, h1, h2, h3, h4, h5, h6, h7]
  · intro pr hpr
    simp only [List.mem_cons, List.not_mem_nil, or_false] at hpr
    rcases hpr with h1 | h1 | h1 | h1 | h1 | h1 | h1 <;>
      subst h1 <;>
      simp [loadTestCaseFromUnittest, appTestCaseMembers, overriddenMethods, Member.isProp,
        List.foldl, Heap.setattrOn, lookupAttr_setattrA_ne, lookupAttr_setattrA_self]

/-- Heap fixture for the adapter witness: class 0 is the native test
case being adapted (one pre-existing attribute), class 1 is unrelated. -/
def sampleHeap : Heap := fun i =>
  if i = 0 then [("helper", Member.valueMember "helper")]
  else [("other", Member.valueMember "other")]

/-- Witness for c10_native_adapter_in_place on sampleHeap at class 0. -/
theorem c10_witness :
    (loadTestCaseFromUnittest sampleHeap 0).1 = 0 ∧
    (loadTestCaseFromUnittest sampleHeap 0).2 1 = sampleHeap 1 ∧
    lookupAttr ((loadTestCaseFromUnittest sampleHeap 0).2 0) "helper" =
      lookupAttr (sampleHeap 0) "helper" ∧
    lookupAttr ((loadTestCaseFromUnittest sampleHeap 0).2 0) "run" =
      Option.some (Member.funcMember "run") := by
  have h := c10_native_adapter_in_place sampleHeap 0
  refine ⟨h.1, h.2.1 1 (by decide), h.2.2.1 "helper" (by decide), ?_⟩
  exact h.2.2.2 ("run", Member.funcMember "run") (by simp)

/-! ### Comparator facts for the ordering claim -/

theorem charToNat_inj {a b : Char} (h : a.toNat = b.toNat) : a = b :=
  Char.ext (UInt32.toNat.inj h)

theorem strToList_inj {a b : String} (h : a.toList = b.toList) : a = b := by
  cases a
  cases b
  simp only [String.toList] at h
  exact congrArg String.mk h

theorem cmpChars_eq_iff (a b : List Char) : cmpChars a b = Ordering.eq ↔ a = b := by
  induction a generalizing b with
  | nil => cases b <;> simp [cmpChars]
  | cons x as ih =>
    cases b with
    | nil => simp [cmpChars]
    | cons y bs =>
      rcases hc : compare x.toNat y.toNat with _ | _ | _
      · have hxy : x ≠ y := by
          intro hxx
          rw [hxx, Nat.compare_eq_lt] at hc
          exact absurd hc (lt_irrefl _)
        simp [cmpChars, hc, hxy]
      · have hxy : x = y := charToNat_inj (Nat.compare_eq_eq.mp hc)
        subst hxy
        simp [cmpChars, hc, ih]
      · have hxy : x ≠ y := by
          intro hxx
          rw [hxx, Nat.compare_eq_gt] at hc
          exact absurd hc (lt_irrefl _)
        simp [cmpChars, hc, hxy]

theorem cmpChars_swap (a b : List Char) : cmpChars b a = (cmpChars a b).swap := by
  induction a generalizing b with
  | nil => cases b <;> simp [cmpChars, Ordering.swap]
  | cons x as ih =>
    cases b with
    | nil => simp [cmpChars, Ordering.swap]
    | cons y bs =>
      rcases hc : compare x.toNat y.toNat with _ | _ | _
      · have hyx : compare y.toNat x.toNat = Ordering.gt :=
          Nat.compare_eq_gt.mpr (Nat.compare_eq_lt.mp hc)
        simp [cmpChars, hc, hyx, Ordering.swap]
      · have hxy := Nat.compare_eq_eq.mp hc
        have hyx : compare y.toNat x.toNat = Ordering.eq := Nat.compare_eq_eq.mpr hxy.symm
        simp [cmpChars, hc, hyx, ih]
      · have hyx : compare y.toNat x.toNat = Ordering.lt :=
          Nat.compare_eq_lt.mpr (Nat.compare_eq_gt.mp hc)
        simp [cmpChars, hc, hyx, Ordering.swap]

theorem cmpChars_lt_trans {a b c : List Char}
    (hab : cmpChars a b = Ordering.lt) (hbc : cmpChars b c = Ordering.lt) :
    cmpChars a c = Ordering.lt := by
  induction a generalizing b c with
  | nil =>
    cases b with
    | nil => simp [cmpChars] at hab
    | cons y bs =>
      cases c with
      | nil => simp [cmpChars] at hbc
      | cons z cs => simp [cmpChars]
  | cons x as ih =>
    cases b with
    | nil => simp [cmpChars] at hab
    | cons y bs =>
      cases c with
      | nil => simp [cmpChars] at hbc
      | cons z cs =>
        rcases hxy : compare x.toNat y.toNat with _ | _ | _ <;>
          rcases hyz : compare y.toNat z.toNat with _ | _ | _ <;>
          simp [cmpChars, hxy, hyz] at hab hbc ⊢
        · have hxz : compare x.toNat z.toNat = Ordering.lt :=
            Nat.compare_eq_lt.mpr
              (Nat.lt_trans (Nat.compare_eq_lt.mp hxy) (Nat.compare_eq_lt.mp hyz))
          simp [hxz]
        · have hxz : compare x.toNat z.toNat = Ordering.lt := by
            rw [← Nat.compare_eq_eq.mp hyz]
            exact hxy
          simp [hxz]
        · have hxz : compare x.toNat z.toNat = Ordering.lt := by
            rw [Nat.compare_eq_eq.mp hxy]
            exact hyz
          simp [hxz]
        · have hxz : compare x.toNat z.toNat = Ordering.eq := by
            rw [Nat.compare_eq_eq.mp hxy]
            exact hyz
          simp [hxz]
          exact ih hab hbc

/-- Bridge between the comparator result and the ordering property the
spec asserts: cmp(x, y) <= 0 means same file and non-decreasing line,
or strictly ascending file names. -/
theorem sort_methods_le_iff (x y : TMethod) :
    (sort_methods x y ≠ Ordering.gt) ↔
      (if x.file = y.file then x.lineno ≤ y.lineno
       else cmpChars x.file.toList y.file.toList = Ordering.lt) := by
  by_cases hf : x.file = y.file
  · simp only [sort_methods]
    rw [if_pos hf, if_pos hf]
    constructor
    · intro hng
      by_contra hlt
      exact hng (Nat.compare_eq_gt.mpr (Nat.lt_of_not_le hlt))
    · intro hle hg
      exact absurd (Nat.compare_eq_gt.mp hg) (Nat.not_lt.mpr hle)
  · have hne : x.file.toList ≠ y.file.toList := fun hh => hf (strToList_inj hh)
    simp only [sort_methods, hf, if_neg, not_false_iff]
    rcases hc : cmpChars x.file.toList y.file.toList with _ | _ | _
    · simp
    · exact absurd ((cmpChars_eq_iff _ _).mp hc) hne
    · simp

theorem methodLe_total (a b : TMethod) : (methodLe a b || methodLe b a) = true := by
  simp only [methodLe, Bool.or_eq_true, decide_eq_true_eq]
  by_cases hf : a.file = b.file
  · rw [sort_methods_le_iff, sort_methods_le_iff, if_pos hf, if_pos hf.symm]
    omega
  · rw [sort_methods_le_iff, sort_methods_le_iff]
    simp only [hf, Ne.symm hf, if_neg, not_false_iff]
    rcases hc : cmpChars a.file.toList b.file.toList with _ | _ | _
    · simp
    · exact absurd (strToList_inj ((cmpChars_eq_iff _ _).mp hc)) hf
    · right
      rw [cmpChars_swap, hc]
      rfl

theorem methodLe_trans (a b c : TMethod)
    (hab : methodLe a b = true) (hbc : methodLe b c = true) : methodLe a c = true := by
  simp only [methodLe, decide_eq_true_eq] at hab hbc ⊢
  rw [sort_methods_le_iff] at hab hbc ⊢
  by_cases hf1 : a.file = b.file <;> by_cases hf2 : b.file = c.file
  · have hf3 : a.file = c.file := hf1.trans hf2
    simp only [hf1, if_pos] at hab
    simp only [hf2, if_pos] at hbc
    simp only [hf3, if_pos]
    omega
  · have hf3 : a.file ≠ c.file := hf1 ▸ hf2
    simp only [hf3, if_neg, not_false_iff]
    simp only [hf2, if_neg, not_false_iff] at hbc
    rw [hf1]
    exact hbc
  · have hf3 : a.file ≠ c.file := fun hh => hf1 (hh.trans hf2.symm)
    simp only [hf3, if_neg, not_false_iff]
    simp only [hf1, if_neg, not_false_iff] at hab
    rw [← hf2]
    exact hab
  · simp only [hf1, if_neg, not_false_iff] at hab
    simp only [hf2, if_neg, not_false_iff] at hbc
    by_cases hf3 : a.file = c.file
    · rw [hf3] at hab
      rw [cmpChars_swap] at hab
      rw [hbc] at hab
      exact absurd hab (by decide)
    · simp only [hf3, if_neg, not_false_iff]
      exact cmpChars_lt_trans hab hbc

/-- C1 counterexample input: one module in one source file a.py with a
native unittest class whose test method sits on line 50 and a plain
Test class whose test method sits on line 1 (the per-module grouping of
lines 217-227 loads all unittest classes before all plain classes). -/
def tmHigh : TMethod := { mname := "test_hi", file := "a.py", lineno := 50 }

def tmLow : TMethod := { mname := "test_lo", file := "a.py", lineno := 1 }

def moduleMixed : TModule :=
  { unittests := [TClass.mk [tmHigh]], plains := [TClass.mk [tmLow]], functions := [] }

/-- C1 counterexample: the final Suite produced by discovery on
moduleMixed lists the line-50 Case before the line-1 Case from the
same source file, so the global ordering property of the claim fails
(sorting happens only inside one test case class, never across the
classes of a module). -/
theorem c1_counterexample : ¬ claimOrdered (loadTestsFromDirectory [moduleMixed]) := by
  have heq : loadTestsFromDirectory [moduleMixed] = [tmHigh, tmLow] := by
    simp [loadTestsFromDirectory, loadTestsFromModule, loadCaseList, moduleMixed,
      List.mergeSort_singleton]
  rw [heq]
  intro h
  have hrel := (List.pairwise_cons.mp h).1 tmLow (by simp)
  simp [claimOrdered, tmHigh, tmLow] at hrel

/-- C1 amended: the ordering guarantee holds among the Cases produced
from one test case class: in the sorted method list of any single
class, any earlier Case is on an earlier-or-equal line when both come
from the same source file, and on a strictly smaller file name
otherwise; across distinct classes (and the per-function synthetic
classes) the Suite keeps discovery order instead. -/
theorem c1_amended_per_class_order (c : TClass) : claimOrdered (loadCaseList c) := by
  have hs := List.sorted_mergeSort
    (fun x y z hxy hyz => methodLe_trans x y z hxy hyz)
    methodLe_total
    c.methods
  refine List.Pairwise.imp ?_ hs
  intro x y hxy
  have hle : sort_methods x y ≠ Ordering.gt := by
    simpa [methodLe] using hxy
  exact (sort_methods_le_iff x y).mp hle

end CliTest
